import Mathlib

/-!
# Verification of the sales-analytics pipeline

Shallow embedding of the Python sales-analytics system
(`utils/file_handler.py`, `utils/api_handler.py`, `utils/data_processor.py`,
`utils/report_generator.py`) and proofs about it.

Modelling conventions, used throughout:

* Python `str` is `String`; string primitives (`split`, `strip`, `lower`,
  `replace`, substring test, `startswith`) are embedded as executable
  character-list functions restricted to ASCII behaviour, which is the
  character repertoire the pipeline's data uses.
* Python `int` is `Int` (arbitrary precision in Python, so no wrap-around),
  Python `float` is embedded as `Rat`; none of the proved properties depend
  on binary floating-point rounding.
* Python `dict` (insertion-ordered, key update in place) is an association
  list with in-place-update insertion (`dictInsert`) and first-match lookup.
  A `defaultdict` aggregation loop is embedded extensionally: the distinct
  keys in first-encounter order (`firstKeys`), each paired with the fold of
  its group, which is exactly the mapping the loop produces.
* Python's stable `sorted` is embedded as a stable insertion sort `stSort`;
  `sorted(..., reverse=True)` flips the strict comparison, which is what
  CPython does (ties keep their original order in both directions).
* Code that can raise an uncaught exception is embedded in `Except Unit`.
-/

/-! ## Character and string primitives -/

/-- ASCII whitespace test, embedding the characters `str.strip` removes for
the pipeline's data. -/
def isWS (c : Char) : Bool :=
  c = ' ' || c = '\t' || c = '\n' || c = '\r'

/-- Embeds Python `s.split(sep)` for a one-character separator, on the
character list of `s`.  `split` on an empty string yields `[""]`, matching
Python. -/
def splitOnChar (sep : Char) : List Char → List (List Char)
  | [] => [[]]
  | c :: cs =>
    match splitOnChar sep cs with
    | [] => if c = sep then [[], []] else [[c]]
    | h :: t => if c = sep then [] :: h :: t else (c :: h) :: t

/-- Embeds Python `s.strip()` (ASCII whitespace). -/
def trimChars (l : List Char) : List Char :=
  ((l.dropWhile isWS).reverse.dropWhile isWS).reverse

/-- Embeds Python `" ".join(parts)`. -/
def joinSpace : List (List Char) → List Char
  | [] => []
  | [x] => x
  | x :: y :: t => x ++ ' ' :: joinSpace (y :: t)

/-- Embeds Python `s.lower()` (ASCII range). -/
def lowerChars (l : List Char) : List Char :=
  l.map fun c => if 'A' ≤ c && c ≤ 'Z' then Char.ofNat (c.toNat + 32) else c

/-- Head-match test: `leadMatch pat l` is true when `pat` occurs at the head of `l`. -/
def leadMatch : List Char → List Char → Bool
  | [], _ => true
  | _ :: _, [] => false
  | a :: as, b :: bs => a = b && leadMatch as bs

/-- Embeds Python `needle in hay` (substring containment).  The empty
needle is contained everywhere, as in Python. -/
def containsSub (needle : List Char) : List Char → Bool
  | [] => leadMatch needle []
  | b :: bs => leadMatch needle (b :: bs) || containsSub needle bs

/-- Embeds Python `s.startswith(c)` for a one-character prefix string. -/
def startsWith1 (s : String) (c : Char) : Bool :=
  match s.data with
  | [] => false
  | a :: _ => a = c

/-- Numeric value of a list of decimal digit characters. -/
def digitsVal (l : List Char) : Nat :=
  l.foldl (fun n c => n * 10 + (c.toNat - 48)) 0

/-- Embeds Python `int(s)` on an already-stripped string: an optional sign
followed by at least one decimal digit.  (Python additionally allows
underscore digit-group separators; the pipeline's data never contains
them.) -/
def pyInt (s : String) : Option Int :=
  match s.data with
  | [] => none
  | '-' :: ds =>
    if !ds.isEmpty && ds.all Char.isDigit then some (-(digitsVal ds : Int)) else none
  | '+' :: ds =>
    if !ds.isEmpty && ds.all Char.isDigit then some (digitsVal ds : Int) else none
  | ds =>
    if ds.all Char.isDigit then some (digitsVal ds : Int) else none

/-- Mantissa of a Python float literal: `digits`, `digits.digits`,
`digits.` or `.digits`. -/
def pyFloatMantissa (l : List Char) : Option Rat :=
  match splitOnChar '.' l with
  | [ip] => if !ip.isEmpty && ip.all Char.isDigit then some (digitsVal ip : Rat) else none
  | [ip, fp] =>
    if (!ip.isEmpty || !fp.isEmpty) && ip.all Char.isDigit && fp.all Char.isDigit then
      some ((digitsVal ip : Rat) + (digitsVal fp : Rat) / ((10 : Rat) ^ fp.length))
    else none
  | _ => none

/-- Exponent part of a Python float literal: optional sign, then digits. -/
def pyFloatExp (l : List Char) : Option Int :=
  match l with
  | '-' :: ds => if !ds.isEmpty && ds.all Char.isDigit then some (-(digitsVal ds : Int)) else none
  | '+' :: ds => if !ds.isEmpty && ds.all Char.isDigit then some (digitsVal ds : Int) else none
  | ds => if !ds.isEmpty && ds.all Char.isDigit then some (digitsVal ds : Int) else none

/-- Embeds Python `float(s)` on an already-stripped string, for the finite
decimal/scientific literal forms (the special `inf`/`nan` spellings are not
modelled; the pipeline's data is plain decimals).  The value is kept exact
as a rational. -/
def pyFloat (s : String) : Option Rat :=
  let body := s.data.map fun c => if c = 'E' then 'e' else c
  let signAndRest : Rat × List Char :=
    match body with
    | '-' :: r => (-1, r)
    | '+' :: r => (1, r)
    | r => (1, r)
  match splitOnChar 'e' signAndRest.2 with
  | [m] => (pyFloatMantissa m).map fun v => signAndRest.1 * v
  | [m, e] =>
    match pyFloatMantissa m, pyFloatExp e with
    | some v, some ex => some (signAndRest.1 * v * (10 : Rat) ^ ex)
    | _, _ => none
  | _ => none

/-- Embeds Python `round(x, 2)` on an exact rational value: round half to
even at two decimal places. -/
def pyRound2 (x : Rat) : Rat :=
  let y := x * 100
  let f : Int := ⌊y⌋
  let r : Rat := y - (f : Rat)
  let n : Int :=
    if r < 1 / 2 then f
    else if 1 / 2 < r then f + 1
    else if f % 2 = 0 then f else f + 1
  (n : Rat) / 100

/-! ## Dates

`datetime.strptime(s, "%Y-%m-%d")` accepts one to four year digits, one or
two month/day digits, and validates the calendar ranges (Python's
`datetime` requires `1 <= year`, and a day valid for the month, with leap
years). -/

def leapYear (y : Nat) : Bool :=
  (y % 4 = 0 && y % 100 ≠ 0) || y % 400 = 0

def daysInMonth (y m : Nat) : Nat :=
  if m = 2 then (if leapYear y then 29 else 28)
  else if m = 4 || m = 6 || m = 9 || m = 11 then 30
  else 31

/-- Embeds `datetime.strptime(s, "%Y-%m-%d")`, returning the
`(year, month, day)` triple, or `none` where Python raises `ValueError`. -/
def parseDate (s : String) : Option (Nat × Nat × Nat) :=
  match splitOnChar '-' s.data with
  | [ys, ms, ds] =>
    if !ys.isEmpty && decide (ys.length ≤ 4) && ys.all Char.isDigit &&
       !ms.isEmpty && decide (ms.length ≤ 2) && ms.all Char.isDigit &&
       !ds.isEmpty && decide (ds.length ≤ 2) && ds.all Char.isDigit then
      let y := digitsVal ys
      let m := digitsVal ms
      let d := digitsVal ds
      if 1 ≤ y && 1 ≤ m && m ≤ 12 && 1 ≤ d && d ≤ daysInMonth y m then
        some (y, m, d) else none
    else none
  | _ => none

/-- Order-reflecting numeric key for a parsed date: comparing `dateKey`s of
two parseable date strings compares their calendar dates. -/
def dateKey (s : String) : Nat :=
  match parseDate s with
  | some (y, m, d) => y * 10000 + m * 100 + d
  | none => 0

/-! ## Ordered dictionaries and grouping -/

/-- Embeds `d[k] = v` on a Python dict held as an insertion-ordered
association list: an existing key keeps its position and gets the new
value, a new key is appended. -/
def dictInsert {K V : Type} [DecidableEq K] : List (K × V) → K → V → List (K × V)
  | [], k, v => [(k, v)]
  | (k', v') :: rest, k, v =>
    if k' = k then (k, v) :: rest else (k', v') :: dictInsert rest k v

/-- Embeds `d.get(k)` on a Python dict held as an association list. -/
def dictGet? {K V : Type} [DecidableEq K] (m : List (K × V)) (k : K) : Option V :=
  match m.find? fun kv => decide (kv.1 = k) with
  | some kv => some kv.2
  | none => none

/-- The distinct elements of a list in first-encounter order: the key
sequence a Python dict built by an aggregation loop over the list ends up
with. -/
def firstKeys {K : Type} [DecidableEq K] : List K → List K
  | [] => []
  | k :: ks => k :: (firstKeys ks).filter fun a => decide (a ≠ k)

/-! ## Stable sorting (Python `sorted`) -/

/-- Insert `x` after every element `y` with `lt y x`; with `lt` the strict
key comparison this is one step of a stable insertion sort. -/
def stInsert {α : Type} (lt : α → α → Bool) (x : α) : List α → List α
  | [] => [x]
  | y :: ys => if lt y x then y :: stInsert lt x ys else x :: y :: ys

/-- Stable sort with strict comparison `lt`: the embedding of Python
`sorted(l, key=k)` with `lt a b := k a < k b`, and of
`sorted(l, key=k, reverse=True)` with `lt a b := k b < k a`. -/
def stSort {α : Type} (lt : α → α → Bool) : List α → List α
  | [] => []
  | x :: xs => stInsert lt x (stSort lt xs)

/-- One pass of Python `max(l, key=f)`: the running maximum is replaced
only by a strictly larger key, so the first maximum wins. -/
def pyFold {α : Type} (f : α → Rat) (c : α) (l : List α) : α :=
  l.foldl (fun c y => if f c < f y then y else c) c

/-- Embeds Python `max(l, key=f)`; `none` where Python raises
`ValueError` on an empty sequence. -/
def pyMaxBy {α : Type} (f : α → Rat) : List α → Option α
  | [] => none
  | x :: xs => some (pyFold f x xs)

/-! ## Data model -/

/-- A parsed sales transaction (`parse_transactions` record).  `ProductName`
is `none` when the raw product-name field was empty, mirroring
`normalize_product_name` returning Python `None`. -/
structure Transaction where
  TransactionID : String
  Date : String
  ProductID : String
  ProductName : Option String
  Quantity : Int
  UnitPrice : Rat
  CustomerID : String
  Region : String
deriving DecidableEq

/-- The derived amount `Quantity * UnitPrice` used throughout. -/
def amount (tx : Transaction) : Rat :=
  (tx.Quantity : Rat) * tx.UnitPrice

/-- A catalog product as produced by `fetch_all_products` (all fields
defaulted on fetch, so always present). -/
structure CatalogProduct where
  id : Nat
  title : String
  category : String
  brand : String
  rating : Rat
deriving DecidableEq

/-- A transaction enriched with catalog metadata (`enrich_sales_data`
record). -/
structure EnrichedTransaction extends Transaction where
  API_Category : String
  API_Brand : String
  API_Rating : Rat
  API_Match : Bool
deriving DecidableEq

/-! ## `utils/file_handler.py` -/

namespace FileHandler

/-- Embeds `normalize_product_name`: `None` for an empty input, otherwise
split on commas, strip each part, keep the non-empty stripped parts (in
input order, as the source's list comprehension does), and join with
single spaces. -/
def normalize_product_name (s : String) : Option String :=
  if s = "" then none
  else
    some (String.mk (joinSpace ((splitOnChar ',' s.data).filterMap fun p =>
      if trimChars p = [] then none else some (trimChars p))))

/-- The body of the `parse_transactions` loop after the `split("|")`:
builds the record when there are exactly 8 fields and both numeric fields
convert, `none` (the source's `continue`) otherwise. -/
def parseLineFields : List (List Char) → Option Transaction
  | [tid, date, pid, pname, qty, price, cid, region] =>
    match pyInt (String.mk (trimChars (qty.filter fun c => c ≠ ','))),
          pyFloat (String.mk (trimChars (price.filter fun c => c ≠ ','))) with
    | some q, some p =>
      some { TransactionID := String.mk (trimChars tid)
             Date := String.mk (trimChars date)
             ProductID := String.mk (trimChars pid)
             ProductName := normalize_product_name (String.mk pname)
             Quantity := q
             UnitPrice := p
             CustomerID := String.mk (trimChars cid)
             Region := String.mk (trimChars region) }
    | _, _ => none
  | _ => none

/-- One line of `parse_transactions`. -/
def parseLine (line : String) : Option Transaction :=
  parseLineFields (splitOnChar '|' line.data)

/-- Embeds `parse_transactions`: each raw line parsed in order, malformed
lines silently dropped. -/
def parse_transactions (lines : List String) : List Transaction :=
  lines.filterMap parseLine

/-- The validation predicate of `validate_and_filter`: required fields
non-empty, then the `T`/`P`/`C` prefix rules, then positive quantity and
unit price. -/
def validTx (tx : Transaction) : Bool :=
  if tx.TransactionID = "" || tx.ProductID = "" || tx.CustomerID = "" || tx.Region = "" then
    false
  else if !(startsWith1 tx.TransactionID 'T' && startsWith1 tx.ProductID 'P' &&
            startsWith1 tx.CustomerID 'C') then
    false
  else if tx.Quantity ≤ 0 || tx.UnitPrice ≤ 0 then
    false
  else
    true

/-- The summary dict returned by `validate_and_filter`. -/
structure VSummary where
  total_input : Nat
  invalid : Nat
  filtered_by_region : Nat
  filtered_by_amount : Nat
  final_count : Nat
deriving DecidableEq

/-- The `if region:` stage of `validate_and_filter` (skipped for `None` or
the empty string, Python truthiness). -/
def regionStage (region : Option String) (l : List Transaction) : List Transaction :=
  match region with
  | none => l
  | some r => if r = "" then l else l.filter fun tx => decide (tx.Region = r)

/-- The `if min_amount is not None:` stage (inclusive lower bound). -/
def minStage (m? : Option Rat) (l : List Transaction) : List Transaction :=
  match m? with
  | none => l
  | some m => l.filter fun tx => decide (m ≤ amount tx)

/-- The `if max_amount is not None:` stage (inclusive upper bound). -/
def maxStage (m? : Option Rat) (l : List Transaction) : List Transaction :=
  match m? with
  | none => l
  | some mx => l.filter fun tx => decide (amount tx ≤ mx)

/-- Embeds `validate_and_filter`: drop and count invalid records, then the
optional region filter, then the inclusive min- and max-amount filters, in
that order.  Returns `(filtered, invalid_count, summary)`. -/
def validate_and_filter (ts : List Transaction) (region : Option String)
    (min_amount max_amount : Option Rat) :
    List Transaction × Nat × VSummary :=
  let valid := ts.filter validTx
  let invalid := (ts.filter fun tx => !validTx tx).length
  let f1 := regionStage region valid
  let f2 := minStage min_amount f1
  let f3 := maxStage max_amount f2
  (f3, invalid,
    { total_input := ts.length
      invalid := invalid
      filtered_by_region := valid.length - f1.length
      filtered_by_amount := (f1.length - f2.length) + (f2.length - f3.length)
      final_count := f3.length })

end FileHandler

/-! ## `utils/api_handler.py` -/

namespace ApiHandler

/-- Embeds the normalized-title key `p["title"].lower().replace(" ", "")`. -/
def normTitle (s : String) : String :=
  String.mk ((lowerChars s.data).filter fun c => c ≠ ' ')

/-- The `{"by_title": ..., "by_id": ...}` mapping dict. -/
structure ProductMapping where
  by_title : List (String × CatalogProduct)
  by_id : List (Nat × CatalogProduct)
deriving DecidableEq

/-- Embeds `create_product_mapping`: one pass over the catalog filling both
dicts (later products with a duplicate key overwrite in place). -/
def create_product_mapping (ps : List CatalogProduct) : ProductMapping :=
  { by_title := ps.foldl (fun m p => dictInsert m (normTitle p.title) p) []
    by_id := ps.foldl (fun m p => dictInsert m p.id p) [] }

/-- Embeds `int("".join(filter(str.isdigit, product_id)))`: the digit
characters of the id, as a number; `none` where Python raises `ValueError`
(no digits at all). -/
def pyIntDigits (s : String) : Option Nat :=
  let ds := s.data.filter Char.isDigit
  if ds.isEmpty then none else some (digitsVal ds)

/-- Attempt 1 of `enrich_sales_data`: numeric-id lookup of the digits of
`ProductID` in the by-id dict. -/
def idLookup (m : ProductMapping) (tx : Transaction) : Option CatalogProduct :=
  match pyIntDigits tx.ProductID with
  | none => none
  | some n => dictGet? m.by_id n

/-- The substring test of attempt 2: `csv_name in key or key in csv_name`. -/
def titleHit (csvName key : String) : Bool :=
  containsSub csvName.data key.data || containsSub key.data csvName.data

/-- Attempt 2 of `enrich_sales_data`: first by-title entry (dict iteration
order) whose key matches the normalized transaction product name in either
substring direction — the source's `for ... break` loop. -/
def nameLookup (m : ProductMapping) (name : String) : Option CatalogProduct :=
  match m.by_title.find? fun kv => titleHit (normTitle name) kv.1 with
  | some kv => some kv.2
  | none => none

/-- Assemble the enriched record: matched catalog fields verbatim, or the
forced generic placeholder, and `API_Match = True` unconditionally. -/
def mkEnriched (tx : Transaction) : Option CatalogProduct → EnrichedTransaction
  | some p => { toTransaction := tx, API_Category := p.category, API_Brand := p.brand,
                API_Rating := p.rating, API_Match := true }
  | none => { toTransaction := tx, API_Category := "miscellaneous", API_Brand := "Generic",
              API_Rating := 4, API_Match := true }

/-- Enrichment of a single transaction: numeric-id lookup first, on failure
the partial-name match over `ProductName`.  `ProductName` of `None` on the
fallback path is Python `None.lower()`, an uncaught `AttributeError` —
embedded as `Except.error`. -/
def enrichTx (m : ProductMapping) (tx : Transaction) : Except Unit EnrichedTransaction :=
  match idLookup m tx with
  | some p => .ok (mkEnriched tx (some p))
  | none =>
    match tx.ProductName with
    | none => .error ()
    | some name => .ok (mkEnriched tx (nameLookup m name))

/-- Embeds `enrich_sales_data`: each transaction enriched in order; an
exception aborts the whole call. -/
def enrich_sales_data (ts : List Transaction) (m : ProductMapping) :
    Except Unit (List EnrichedTransaction) :=
  match ts with
  | [] => .ok []
  | tx :: rest =>
    match enrichTx m tx with
    | .error e => .error e
    | .ok etx =>
      match enrich_sales_data rest m with
      | .error e => .error e
      | .ok rest' => .ok (etx :: rest')

end ApiHandler

/-! ## `utils/data_processor.py` -/

namespace DataProcessor

/-- Embeds `calculate_total_revenue`: the amounts summed, rounded to two
decimals. -/
def calculate_total_revenue (ts : List Transaction) : Rat :=
  pyRound2 (ts.map amount).sum

/-- Accumulated sales of one region (the `defaultdict` group value). -/
def regionSales (ts : List Transaction) (r : String) : Rat :=
  ((ts.filter fun tx => decide (tx.Region = r)).map amount).sum

/-- Transaction count of one region. -/
def regionCount (ts : List Transaction) (r : String) : Nat :=
  (ts.filter fun tx => decide (tx.Region = r)).length

/-- Embeds `region_wise_sales`: per-region totals in encounter order, then
percentages of the (rounded) grand total, sorted descending by rounded
total sales.  When the grand total is zero and at least one region exists,
the percentage division is Python `ZeroDivisionError`: `Except.error`.
Each entry is `(region, total_sales, transaction_count, percentage)`. -/
def region_wise_sales (ts : List Transaction) :
    Except Unit (List (String × Rat × Nat × Rat)) :=
  let total := calculate_total_revenue ts
  let groups := (firstKeys (ts.map fun tx => tx.Region)).map fun r =>
    (r, regionSales ts r, regionCount ts r)
  match groups with
  | [] => .ok []
  | _ :: _ =>
    if total = 0 then .error ()
    else
      .ok (stSort (fun a b => decide (b.2.1 < a.2.1))
        (groups.map fun g => (g.1, pyRound2 g.2.1, g.2.2, pyRound2 (g.2.1 / total * 100))))

/-- Total quantity of one product-name group. -/
def prodQty (ts : List Transaction) (nm : Option String) : Int :=
  ((ts.filter fun tx => decide (tx.ProductName = nm)).map fun tx => tx.Quantity).sum

/-- Accumulated revenue of one product-name group. -/
def prodRevenue (ts : List Transaction) (nm : Option String) : Rat :=
  ((ts.filter fun tx => decide (tx.ProductName = nm)).map amount).sum

/-- The `product_map` of `top_selling_products`: one entry per distinct
`ProductName` in first-encounter order, with summed quantity and revenue. -/
def productGroups (ts : List Transaction) : List (Option String × Int × Rat) :=
  (firstKeys (ts.map fun tx => tx.ProductName)).map fun nm =>
    (nm, prodQty ts nm, prodRevenue ts nm)

/-- The `sorted(..., key=quantity, reverse=True)` step of
`top_selling_products` (stable, ties keep encounter order). -/
def sortDescQty (l : List (Option String × Int × Rat)) : List (Option String × Int × Rat) :=
  stSort (fun a b => decide (b.2.1 < a.2.1)) l

/-- Embeds `top_selling_products`: grouped, sorted descending by quantity,
first `n` taken, revenue rounded in the final tuples. -/
def top_selling_products (ts : List Transaction) (n : Nat) :
    List (Option String × Int × Rat) :=
  ((sortDescQty (productGroups ts)).take n).map fun g => (g.1, g.2.1, pyRound2 g.2.2)

/-- Revenue of one date group (before the final rounding). -/
def dayRevenue (ts : List Transaction) (d : String) : Rat :=
  ((ts.filter fun tx => decide (tx.Date = d)).map amount).sum

/-- Transaction count of one date group. -/
def dayCount (ts : List Transaction) (d : String) : Nat :=
  (ts.filter fun tx => decide (tx.Date = d)).length

/-- Distinct-customer count of one date group. -/
def dayCustomers (ts : List Transaction) (d : String) : Nat :=
  (firstKeys ((ts.filter fun tx => decide (tx.Date = d)).map fun tx => tx.CustomerID)).length

/-- One value of the `daily_sales_trend` result dict. -/
structure DayStat where
  revenue : Rat
  transaction_count : Nat
  unique_customers : Nat
deriving DecidableEq

def dayStat (ts : List Transaction) (d : String) : DayStat :=
  { revenue := pyRound2 (dayRevenue ts d)
    transaction_count := dayCount ts d
    unique_customers := dayCustomers ts d }

/-- Embeds `daily_sales_trend`: per-date stats in encounter order, then
`sorted(..., key=strptime)`.  A date string `strptime` cannot parse is an
uncaught `ValueError` raised while sorting: `Except.error`. -/
def daily_sales_trend (ts : List Transaction) :
    Except Unit (List (String × DayStat)) :=
  let groups := (firstKeys (ts.map fun tx => tx.Date)).map fun d => (d, dayStat ts d)
  if (ts.map fun tx => tx.Date).all fun d => (parseDate d).isSome then
    .ok (stSort (fun a b => decide (dateKey a.1 < dateKey b.1)) groups)
  else .error ()

/-- Embeds `find_peak_sales_day`: `max(daily.items(), key=revenue)` — the
first maximum of the date-sorted trend — with that day's revenue and
transaction count.  `max` of an empty dict is an uncaught `ValueError`. -/
def find_peak_sales_day (ts : List Transaction) : Except Unit (String × Rat × Nat) :=
  match daily_sales_trend ts with
  | .error e => .error e
  | .ok l =>
    match pyMaxBy (fun e => e.2.revenue) l with
    | none => .error ()
    | some e => .ok (e.1, e.2.revenue, e.2.transaction_count)

end DataProcessor

/-! ## `utils/report_generator.py` -/

namespace ReportGenerator

/-- Embeds the report generator's `calculate_total_revenue` (no rounding
in this variant). -/
def calculate_total_revenue (ts : List Transaction) : Rat :=
  (ts.map amount).sum

/-- Embeds the report generator's `region_wise_sales`: per-region sales and
counts, percentage `0` when the total is zero (the source's
`if total_sales else 0` guard), sorted descending by sales.  Each entry is
`(region, sales, percent, count)`. -/
def region_wise_sales (ts : List Transaction) : List (String × Rat × Rat × Nat) :=
  let groups := (firstKeys (ts.map fun tx => tx.Region)).map fun r =>
    (r, DataProcessor.regionSales ts r, DataProcessor.regionCount ts r)
  let total := (groups.map fun g => g.2.1).sum
  stSort (fun a b => decide (b.2.1 < a.2.1))
    (groups.map fun g =>
      (g.1, g.2.1, if total = 0 then 0 else g.2.1 / total * 100, g.2.2))

/-- Embeds `top_products`: product groups sorted descending by quantity,
first `n`, each with its 1-based rank. -/
def top_products (ts : List Transaction) (n : Nat) :
    List (Nat × Option String × Int × Rat) :=
  ((DataProcessor.sortDescQty (DataProcessor.productGroups ts)).take n).enum.map
    fun p => (p.1 + 1, p.2.1, p.2.2.1, p.2.2.2)

/-- Total spent by one customer. -/
def custSpent (ts : List Transaction) (c : String) : Rat :=
  ((ts.filter fun tx => decide (tx.CustomerID = c)).map amount).sum

/-- Purchase count of one customer. -/
def custCount (ts : List Transaction) (c : String) : Nat :=
  (ts.filter fun tx => decide (tx.CustomerID = c)).length

/-- Embeds `top_customers`: customer groups sorted descending by spend,
first `n`, each with its 1-based rank. -/
def top_customers (ts : List Transaction) (n : Nat) :
    List (Nat × String × Rat × Nat) :=
  let groups := (firstKeys (ts.map fun tx => tx.CustomerID)).map fun c =>
    (c, custSpent ts c, custCount ts c)
  ((stSort (fun a b => decide (b.2.1 < a.2.1)) groups).take n).enum.map
    fun p => (p.1 + 1, p.2.1, p.2.2.1, p.2.2.2)

/-- Embeds the report generator's `daily_sales_trend`:
`dict(sorted(daily.items()))` — ascending by the date string (tuple
comparison looks at the distinct keys first).  Each entry is
`(date, revenue, count, distinct customers)`. -/
def daily_sales_trend (ts : List Transaction) : List (String × Rat × Nat × Nat) :=
  let groups := (firstKeys (ts.map fun tx => tx.Date)).map fun d =>
    (d, DataProcessor.dayRevenue ts d, DataProcessor.dayCount ts d,
      DataProcessor.dayCustomers ts d)
  stSort (fun a b => decide (a.1 < b.1)) groups

/-- The summary dict of `api_enrichment_summary`.  `failed_products` keeps
`Option String` product names (a `None` name would make Python's
`sorted` raise when mixed with strings; the claims only reach the empty
case). -/
structure ApiSummary where
  total : Nat
  matched : Nat
  failed : Nat
  success_rate : Rat
  failed_products : List (Option String)
deriving DecidableEq

/-- Embeds `sorted(set(...))` over the failed product names: distinct values,
sorted with `None` ordered first (a total extension of Python's order,
which only matters on inputs where Python itself would raise). -/
def sortedFailedNames (l : List (Option String)) : List (Option String) :=
  stSort
    (fun a b =>
      match a, b with
      | none, some _ => true
      | some s, some t => decide (s < t)
      | _, _ => false)
    (firstKeys l)

/-- Embeds `api_enrichment_summary`. -/
def api_enrichment_summary (es : List EnrichedTransaction) : ApiSummary :=
  let total := es.length
  let matched := es.filter fun t => t.API_Match = true
  let failed := es.filter fun t => t.API_Match = false
  { total := total
    matched := matched.length
    failed := failed.length
    success_rate := if total = 0 then 0 else (matched.length : Rat) / (total : Rat) * 100
    failed_products := sortedFailedNames (failed.map fun t => t.ProductName) }

/-- The data `generate_sales_report` computes before and while writing the
report file. -/
structure ReportData where
  total_revenue : Rat
  avg_order : Rat
  first_date : String
  last_date : String
  regions : List (String × Rat × Rat × Nat)
  products : List (Nat × Option String × Int × Rat)
  customers : List (Nat × String × Rat × Nat)
  daily : List (String × Rat × Nat × Nat)
  api : ApiSummary
deriving DecidableEq

/-- Embeds the computations of `generate_sales_report` (file formatting
aside).  `avg_order = total_revenue / len(transactions)` is computed with
no guard: on an empty transaction list Python raises `ZeroDivisionError`,
embedded as `Except.error`. -/
def generate_sales_report (ts : List Transaction) (es : List EnrichedTransaction) :
    Except Unit ReportData :=
  let total := calculate_total_revenue ts
  match ts with
  | [] => .error ()
  | _ :: _ =>
    let dates := stSort (fun a b => decide (a < b)) (ts.map fun tx => tx.Date)
    .ok { total_revenue := total
          avg_order := total / (ts.length : Rat)
          first_date := dates.headD ""
          last_date := dates.getLastD ""
          regions := region_wise_sales ts
          products := top_products ts 5
          customers := top_customers ts 5
          daily := daily_sales_trend ts
          api := api_enrichment_summary es }

end ReportGenerator

/-! ## Library lemmas about the embedding primitives -/

theorem dictGet?_dictInsert_self {K V : Type} [DecidableEq K]
    (m : List (K × V)) (k : K) (v : V) :
    dictGet? (dictInsert m k v) k = some v := by
  induction m with
  | nil => simp [dictInsert, dictGet?, List.find?]
  | cons kv rest ih =>
    by_cases h : kv.1 = k
    · simp [dictInsert, h, dictGet?, List.find?]
    · simpa [dictInsert, h, dictGet?, List.find?] using ih

theorem dictGet?_dictInsert_ne {K V : Type} [DecidableEq K]
    (m : List (K × V)) (k k' : K) (v : V) (hne : k' ≠ k) :
    dictGet? (dictInsert m k v) k' = dictGet? m k' := by
  induction m with
  | nil =>
    have h1 : (decide ((k, v).1 = k')) = false := by simp [Ne.symm hne]
    simp [dictInsert, dictGet?, List.find?, h1]
  | cons kv rest ih =>
    by_cases h : kv.1 = k
    · have h1 : (decide ((k, v).1 = k')) = false := by simp [Ne.symm hne]
      have h2 : (decide (kv.1 = k')) = false := by simp [h, Ne.symm hne]
      simp [dictInsert, h, dictGet?, List.find?, h1, h2]
    · by_cases h' : kv.1 = k'
      · simp [dictInsert, h, dictGet?, List.find?, h', hne]
      · simpa [dictInsert, h, dictGet?, List.find?, h'] using ih

theorem mem_firstKeys {K : Type} [DecidableEq K] {a : K} :
    ∀ {l : List K}, a ∈ firstKeys l ↔ a ∈ l := by
  intro l
  induction l with
  | nil => simp [firstKeys]
  | cons k ks ih =>
    by_cases h : a = k
    · simp [firstKeys, h]
    · simp [firstKeys, h, List.mem_filter, ih]

theorem firstKeys_cons_ne_nil {K : Type} [DecidableEq K] (k : K) (ks : List K) :
    firstKeys (k :: ks) ≠ [] := by
  simp [firstKeys]

theorem stInsert_perm {α : Type} (lt : α → α → Bool) (x : α) (l : List α) :
    List.Perm (stInsert lt x l) (x :: l) := by
  induction l with
  | nil => exact List.Perm.refl [x]
  | cons y ys ih =>
    cases h : lt y x with
    | true =>
      simp only [stInsert, h, if_pos]
      exact (ih.cons y).trans (List.Perm.swap x y ys)
    | false => simp [stInsert, h]

theorem stSort_perm {α : Type} (lt : α → α → Bool) (l : List α) :
    List.Perm (stSort lt l) l := by
  induction l with
  | nil => exact List.Perm.refl []
  | cons x xs ih => exact (stInsert_perm lt x (stSort lt xs)).trans (ih.cons x)

theorem mem_stSort {α : Type} (lt : α → α → Bool) {a : α} {l : List α} :
    a ∈ stSort lt l ↔ a ∈ l :=
  (stSort_perm lt l).mem_iff

theorem stInsert_sorted {α : Type} (lt : α → α → Bool)
    (hasym : ∀ a b, lt a b = true → lt b a = false)
    (htrans : ∀ a b c, lt b a = false → lt c b = false → lt c a = false)
    (x : α) (l : List α) (hl : l.Pairwise fun a b => lt b a = false) :
    (stInsert lt x l).Pairwise fun a b => lt b a = false := by
  induction l with
  | nil => simp [stInsert]
  | cons y ys ih =>
    rcases List.pairwise_cons.mp hl with ⟨hy, hys⟩
    cases h : lt y x with
    | true =>
      simp only [stInsert, h, if_pos]
      refine List.pairwise_cons.mpr ⟨?_, ih hys⟩
      intro b hb
      rcases List.mem_cons.mp ((stInsert_perm lt x ys).mem_iff.mp hb) with hbx | hbys
      · exact hbx ▸ hasym y x h
      · exact hy b hbys
    | false =>
      simp only [stInsert, h, Bool.false_eq_true, if_neg, not_false_iff]
      refine List.pairwise_cons.mpr ⟨?_, hl⟩
      intro b hb
      rcases List.mem_cons.mp hb with hby | hbys
      · exact hby ▸ h
      · exact htrans x y b h (hy b hbys)

theorem stSort_sorted {α : Type} (lt : α → α → Bool)
    (hasym : ∀ a b, lt a b = true → lt b a = false)
    (htrans : ∀ a b c, lt b a = false → lt c b = false → lt c a = false)
    (l : List α) :
    (stSort lt l).Pairwise fun a b => lt b a = false := by
  induction l with
  | nil => simp [stSort]
  | cons x xs ih => exact stInsert_sorted lt hasym htrans x (stSort lt xs) ih

theorem filter_stInsert_pos {α : Type} (lt : α → α → Bool) (p : α → Bool)
    {x : α} (hx : p x = true) :
    ∀ (l : List α), (∀ b ∈ l, p b = true → lt b x = false) →
      (stInsert lt x l).filter p = x :: l.filter p := by
  intro l
  induction l with
  | nil => intro _; simp [stInsert, hx]
  | cons y ys ih =>
    intro h
    cases hlt : lt y x with
    | true =>
      have hpy : p y = false := by
        cases hpy : p y with
        | true => exact absurd hlt (by simp [h y (List.mem_cons_self y ys) hpy])
        | false => rfl
      simp only [stInsert, hlt, if_pos]
      rw [List.filter_cons_of_neg (by simp [hpy]),
        ih (fun b hb hpb => h b (List.mem_cons_of_mem y hb) hpb),
        List.filter_cons_of_neg (by simp [hpy])]
    | false =>
      simp only [stInsert, hlt, Bool.false_eq_true, if_neg, not_false_iff]
      rw [List.filter_cons_of_pos (by simp [hx])]

theorem filter_stInsert_neg {α : Type} (lt : α → α → Bool) (p : α → Bool)
    {x : α} (hx : p x = false) :
    ∀ (l : List α), (stInsert lt x l).filter p = l.filter p := by
  intro l
  induction l with
  | nil => simp [stInsert, hx]
  | cons y ys ih =>
    cases hlt : lt y x with
    | true =>
      simp only [stInsert, hlt, if_pos]
      cases hpy : p y with
      | true =>
        rw [List.filter_cons_of_pos (by simp [hpy]), ih,
          List.filter_cons_of_pos (by simp [hpy])]
      | false =>
        rw [List.filter_cons_of_neg (by simp [hpy]), ih,
          List.filter_cons_of_neg (by simp [hpy])]
    | false =>
      simp only [stInsert, hlt, Bool.false_eq_true, if_neg, not_false_iff]
      rw [List.filter_cons_of_neg (by simp [hx])]

theorem filter_stSort {α : Type} (lt : α → α → Bool) (p : α → Bool)
    (hties : ∀ a b, p a = true → p b = true → lt a b = false) (l : List α) :
    (stSort lt l).filter p = l.filter p := by
  induction l with
  | nil => simp [stSort]
  | cons x xs ih =>
    cases hx : p x with
    | true =>
      rw [stSort, filter_stInsert_pos lt p hx (stSort lt xs)
          (fun b _ hpb => hties b x hpb hx),
        ih, List.filter_cons_of_pos (by simp [hx])]
    | false =>
      rw [stSort, filter_stInsert_neg lt p hx (stSort lt xs), ih,
        List.filter_cons_of_neg (by simp [hx])]

theorem pyFold_spec {α : Type} (f : α → Rat) (l : List α) : ∀ c : α, ∃ r,
    pyFold f c l = r ∧
    ((r = c ∧ ∀ b ∈ l, f b ≤ f c) ∨
      (∃ l1 l2, l = l1 ++ r :: l2 ∧ f c < f r ∧
        (∀ b ∈ l1, f b < f r) ∧ ∀ b ∈ l2, f b ≤ f r)) := by
  induction l with
  | nil => intro c; exact ⟨c, by simp [pyFold], Or.inl ⟨rfl, by simp⟩⟩
  | cons y ys ih =>
    intro c
    by_cases h : f c < f y
    · have hstep : pyFold f c (y :: ys) = pyFold f y ys := by simp [pyFold, h]
      rcases ih y with ⟨r, hr, ⟨heq, hle⟩ | ⟨l1, l2, hsplit, hlt, hl1, hl2⟩⟩
      · refine ⟨r, hstep.trans hr, Or.inr ⟨[], ys, by simp [heq], ?_, by simp, ?_⟩⟩
        · rw [heq]; exact h
        · intro b hb; rw [heq]; exact hle b hb
      · refine ⟨r, hstep.trans hr, Or.inr ⟨y :: l1, l2, by rw [List.cons_append, hsplit],
          h.trans hlt, ?_, hl2⟩⟩
        intro b hb
        rcases List.mem_cons.mp hb with hby | hbl1
        · exact hby ▸ hlt
        · exact hl1 b hbl1
    · have hstep : pyFold f c (y :: ys) = pyFold f c ys := by simp [pyFold, h]
      rcases ih c with ⟨r, hr, ⟨heq, hle⟩ | ⟨l1, l2, hsplit, hlt, hl1, hl2⟩⟩
      · refine ⟨r, hstep.trans hr, Or.inl ⟨heq, ?_⟩⟩
        intro b hb
        rcases List.mem_cons.mp hb with hby | hbys
        · exact hby ▸ le_of_not_lt h
        · exact hle b hbys
      · refine ⟨r, hstep.trans hr, Or.inr ⟨y :: l1, l2, by rw [List.cons_append, hsplit],
          hlt, ?_, hl2⟩⟩
        intro b hb
        rcases List.mem_cons.mp hb with hby | hbl1
        · exact hby ▸ lt_of_le_of_lt (le_of_not_lt h) hlt
        · exact hl1 b hbl1

theorem pyMaxBy_spec {α : Type} (f : α → Rat) (l : List α) (h : l ≠ []) :
    ∃ r l1 l2, pyMaxBy f l = some r ∧ l = l1 ++ r :: l2 ∧
      (∀ b ∈ l1, f b < f r) ∧ ∀ b ∈ l, f b ≤ f r := by
  match l, h with
  | x :: xs, _ =>
    rcases pyFold_spec f xs x with ⟨r, hr, ⟨heq, hle⟩ | ⟨l1, l2, hsplit, hlt, hl1, hl2⟩⟩
    · refine ⟨r, [], xs, by simp [pyMaxBy, hr], by simp [heq], by simp, ?_⟩
      intro b hb
      rcases List.mem_cons.mp hb with hbx | hbxs
      · rw [hbx, heq]
      · rw [heq]; exact hle b hbxs
    · refine ⟨r, x :: l1, l2, by simp [pyMaxBy, hr], by rw [List.cons_append, hsplit], ?_, ?_⟩
      · intro b hb
        rcases List.mem_cons.mp hb with hbx | hbl1
        · exact hbx ▸ hlt
        · exact hl1 b hbl1
      · intro b hb
        rcases List.mem_cons.mp hb with hbx | hbxs
        · exact hbx ▸ le_of_lt hlt
        · rw [hsplit] at hbxs
          rcases List.mem_append.mp hbxs with hb1 | hb2
          · exact le_of_lt (hl1 b hb1)
          · rcases List.mem_cons.mp hb2 with hbr | hbl2
            · exact hbr ▸ le_refl (f r)
            · exact hl2 b hbl2

theorem find?_append_first {α : Type} (g : α → Bool) (pre post : List α) (y : α)
    (hpre : ∀ x ∈ pre, g x = false) (hy : g y = true) :
    (pre ++ y :: post).find? g = some y := by
  induction pre with
  | nil => simp [List.find?, hy]
  | cons a as ih =>
    have ha : g a = false := hpre a (List.mem_cons_self a as)
    simp only [List.cons_append, List.find?, ha]
    exact ih fun x hx => hpre x (List.mem_cons_of_mem a hx)

/-! ## Validation and filtering (claims C1 and C7) -/

/-- The spec's invalidity condition: a required field empty, a required id
prefix missing, or a non-positive quantity or unit price. -/
def invalidCond (tx : Transaction) : Prop :=
  tx.TransactionID = "" ∨ tx.ProductID = "" ∨ tx.CustomerID = "" ∨ tx.Region = "" ∨
  startsWith1 tx.TransactionID 'T' = false ∨ startsWith1 tx.ProductID 'P' = false ∨
  startsWith1 tx.CustomerID 'C' = false ∨ tx.Quantity ≤ 0 ∨ tx.UnitPrice ≤ 0

instance (tx : Transaction) : Decidable (invalidCond tx) := by
  unfold invalidCond
  infer_instance

theorem ifchain_false_iff (a b c : Bool) :
    (if a then false else if b then false else if c then false else true) = false ↔
      (a || (b || c)) = true := by
  cases a <;> cases b <;> cases c <;> simp

theorem validTx_false_iff (tx : Transaction) :
    FileHandler.validTx tx = false ↔ invalidCond tx := by
  unfold FileHandler.validTx invalidCond
  rw [ifchain_false_iff]
  simp [Bool.or_eq_true, decide_eq_true_eq, Bool.and_eq_true, not_and_or, or_assoc]

theorem not_validTx_eq (tx : Transaction) :
    (!FileHandler.validTx tx) = decide (invalidCond tx) := by
  cases h : FileHandler.validTx tx with
  | true =>
    have : ¬ invalidCond tx := fun hc =>
      by simpa [h] using (validTx_false_iff tx).mpr hc
    simp [this]
  | false =>
    have : invalidCond tx := (validTx_false_iff tx).mp h
    simp [this]

/-- The predicate the region stage filters by. -/
def regionPred (region : Option String) : Transaction → Bool :=
  match region with
  | none => fun _ => true
  | some r => if r = "" then fun _ => true else fun tx => decide (tx.Region = r)

/-- The predicate the min-amount stage filters by. -/
def minPred (m? : Option Rat) : Transaction → Bool :=
  match m? with
  | none => fun _ => true
  | some m => fun tx => decide (m ≤ amount tx)

/-- The predicate the max-amount stage filters by. -/
def maxPred (m? : Option Rat) : Transaction → Bool :=
  match m? with
  | none => fun _ => true
  | some mx => fun tx => decide (amount tx ≤ mx)

theorem regionStage_eq (region : Option String) (l : List Transaction) :
    FileHandler.regionStage region l = l.filter (regionPred region) := by
  cases region with
  | none => simp [FileHandler.regionStage, regionPred]
  | some r =>
    by_cases h : r = "" <;> simp [FileHandler.regionStage, regionPred, h]

theorem minStage_eq (m? : Option Rat) (l : List Transaction) :
    FileHandler.minStage m? l = l.filter (minPred m?) := by
  cases m? with
  | none => simp [FileHandler.minStage, minPred]
  | some m => simp [FileHandler.minStage, minPred]

theorem maxStage_eq (m? : Option Rat) (l : List Transaction) :
    FileHandler.maxStage m? l = l.filter (maxPred m?) := by
  cases m? with
  | none => simp [FileHandler.maxStage, maxPred]
  | some m => simp [FileHandler.maxStage, maxPred]

theorem vf_fst_eq (ts : List Transaction) (region : Option String)
    (minA maxA : Option Rat) :
    (FileHandler.validate_and_filter ts region minA maxA).1 =
      (((ts.filter FileHandler.validTx).filter (regionPred region)).filter
        (minPred minA)).filter (maxPred maxA) := by
  show FileHandler.maxStage maxA (FileHandler.minStage minA
    (FileHandler.regionStage region (ts.filter FileHandler.validTx))) = _
  rw [regionStage_eq, minStage_eq, maxStage_eq]

theorem vf_snd_eq (ts : List Transaction) (region : Option String)
    (minA maxA : Option Rat) :
    (FileHandler.validate_and_filter ts region minA maxA).2.1 =
      (ts.filter fun tx => !FileHandler.validTx tx).length := by
  unfold FileHandler.validate_and_filter
  rfl

theorem mem_vf_valid {ts : List Transaction} {region : Option String}
    {minA maxA : Option Rat} {tx : Transaction}
    (h : tx ∈ (FileHandler.validate_and_filter ts region minA maxA).1) :
    FileHandler.validTx tx = true := by
  rw [vf_fst_eq] at h
  exact (List.mem_filter.mp
    (List.mem_filter.mp (List.mem_filter.mp (List.mem_filter.mp h).1).1).1).2

theorem mem_vf_region {ts : List Transaction} {region : Option String}
    {minA maxA : Option Rat} {tx : Transaction}
    (h : tx ∈ (FileHandler.validate_and_filter ts region minA maxA).1) :
    regionPred region tx = true := by
  rw [vf_fst_eq] at h
  exact (List.mem_filter.mp (List.mem_filter.mp (List.mem_filter.mp h).1).1).2

theorem mem_vf_min {ts : List Transaction} {region : Option String}
    {minA maxA : Option Rat} {tx : Transaction}
    (h : tx ∈ (FileHandler.validate_and_filter ts region minA maxA).1) :
    minPred minA tx = true := by
  rw [vf_fst_eq] at h
  exact (List.mem_filter.mp (List.mem_filter.mp h).1).2

theorem mem_vf_max {ts : List Transaction} {region : Option String}
    {minA maxA : Option Rat} {tx : Transaction}
    (h : tx ∈ (FileHandler.validate_and_filter ts region minA maxA).1) :
    maxPred maxA tx = true := by
  rw [vf_fst_eq] at h
  exact (List.mem_filter.mp h).2

/-- C1: `validate_and_filter` counts a parsed record as invalid (and
excludes it) exactly when a required field is empty, a required id prefix
(`T`/`P`/`C`) is missing, or `Quantity <= 0` or `UnitPrice <= 0`; in
particular a record whose `TransactionID` does not start with `T` never
reaches the output, whatever its other fields.  The embedded function is
total, so no exception is raised for such a record. -/
theorem validate_and_filter_invalid_spec :
    ∀ (ts : List Transaction) (region : Option String) (minA maxA : Option Rat)
      (tx : Transaction),
      (FileHandler.validTx tx = false ↔ invalidCond tx) ∧
      (FileHandler.validate_and_filter ts region minA maxA).2.1 =
        ts.countP (fun t => decide (invalidCond t)) ∧
      (invalidCond tx → tx ∉ (FileHandler.validate_and_filter ts region minA maxA).1) ∧
      (startsWith1 tx.TransactionID 'T' = false →
        tx ∉ (FileHandler.validate_and_filter ts region minA maxA).1) := by
  intro ts region minA maxA tx
  have hcount : (FileHandler.validate_and_filter ts region minA maxA).2.1 =
      ts.countP fun t => decide (invalidCond t) := by
    rw [vf_snd_eq, List.countP_eq_length_filter]
    congr 1
    exact List.filter_congr fun t _ => not_validTx_eq t
  have hexcl : invalidCond tx →
      tx ∉ (FileHandler.validate_and_filter ts region minA maxA).1 := by
    intro hinv hmem
    have := mem_vf_valid hmem
    rw [(validTx_false_iff tx).mpr hinv] at this
    exact Bool.false_ne_true this
  refine ⟨validTx_false_iff tx, hcount, hexcl, fun hT => hexcl ?_⟩
  unfold invalidCond
  exact Or.inr (Or.inr (Or.inr (Or.inr (Or.inl hT))))

def w1tx : Transaction :=
  { TransactionID := "X001", Date := "2024-12-01", ProductID := "P101",
    ProductName := some "Laptop", Quantity := 2, UnitPrice := 5,
    CustomerID := "C001", Region := "North" }

/-- Witness for C1 at a concrete record whose `TransactionID` does not
start with `T`. -/
theorem validate_and_filter_invalid_spec_witness :
    (FileHandler.validate_and_filter [w1tx] none none none).2.1 = 1 ∧
    w1tx ∉ (FileHandler.validate_and_filter [w1tx] none none none).1 := by
  have h := validate_and_filter_invalid_spec [w1tx] none none none w1tx
  refine ⟨?_, h.2.2.2 (by decide)⟩
  rw [h.2.1]
  decide

/-- C7: validating-and-filtering the filtered output again, with the
same region and amount parameters, returns that output unchanged. -/
theorem validate_and_filter_idempotent :
    ∀ (ts : List Transaction) (region : Option String) (minA maxA : Option Rat),
      (FileHandler.validate_and_filter
        (FileHandler.validate_and_filter ts region minA maxA).1 region minA maxA).1 =
      (FileHandler.validate_and_filter ts region minA maxA).1 := by
  intro ts region minA maxA
  rw [vf_fst_eq (FileHandler.validate_and_filter ts region minA maxA).1 region minA maxA,
    List.filter_eq_self.mpr fun x hx => mem_vf_valid hx]
  rw [List.filter_eq_self.mpr fun x hx => mem_vf_region hx]
  rw [List.filter_eq_self.mpr fun x hx => mem_vf_min hx]
  rw [List.filter_eq_self.mpr fun x hx => mem_vf_max hx]

/-! ## Product-name normalization (claim C5) -/

/-- The spec's description of normalization: split on commas, strip each
part, drop the empty parts, join the remaining parts with single spaces in
their original input order. -/
def normalizeProductNameSpec (s : String) : String :=
  String.mk (joinSpace (((splitOnChar ',' s.data).map trimChars).filter fun p => !p.isEmpty))

/-- C5: on every non-empty input, `normalize_product_name` returns the
comma-split, stripped, empty-dropped parts joined by single spaces in
their original order; in particular `"Mouse,Wireless"` normalizes to
`"Mouse Wireless"` and not to `"Wireless Mouse"`. -/
theorem normalize_product_name_spec :
    (∀ s : String, s ≠ "" →
      FileHandler.normalize_product_name s = some (normalizeProductNameSpec s)) ∧
    FileHandler.normalize_product_name "Mouse,Wireless" = some "Mouse Wireless" ∧
    FileHandler.normalize_product_name "Mouse,Wireless" ≠ some "Wireless Mouse" := by
  have hfm : ∀ (l : List (List Char)),
      (l.filterMap fun p => if trimChars p = [] then none else some (trimChars p)) =
      (l.map trimChars).filter fun p => !p.isEmpty := by
    intro l
    induction l with
    | nil => rfl
    | cons a as ih =>
      by_cases h : trimChars a = [] <;>
        simp [List.filterMap_cons, List.filter_cons, h, ih]
  refine ⟨?_, by decide, by decide⟩
  intro s hs
  unfold FileHandler.normalize_product_name normalizeProductNameSpec
  rw [if_neg hs, hfm]

/-- Witness for C5 on the spec's own example string (with the space after
the comma). -/
theorem normalize_product_name_spec_witness :
    FileHandler.normalize_product_name "Mouse, Wireless" = some "Mouse Wireless" := by
  have h := normalize_product_name_spec.1 "Mouse, Wireless" (by decide)
  rw [h]
  decide

/-! ## Report generation on the empty list (claim C3) -/

/-- C3 (evidence for a code bug): the report generator's total revenue
of the empty transaction list is `0` and its region table is empty (its
percentage guard works), but `generate_sales_report` on the empty list
divides `total_revenue` by `len(transactions) = 0` with no guard — a
`ZeroDivisionError`, embedded as `Except.error` — instead of producing a
report. -/
theorem generate_sales_report_empty_raises :
    ReportGenerator.calculate_total_revenue [] = 0 ∧
    ReportGenerator.region_wise_sales [] = [] ∧
    ReportGenerator.generate_sales_report [] [] = .error () := by
  exact ⟨rfl, rfl, rfl⟩

/-! ## Region summary with zero total revenue (claim C4) -/

def c4tx : Transaction :=
  { TransactionID := "T001", Date := "2024-12-01", ProductID := "P101",
    ProductName := some "Laptop", Quantity := 0, UnitPrice := 5,
    CustomerID := "C001", Region := "North" }

/-- C4 (evidence for a code bug): on a transaction list with one
`North` record of amount `0`, the data processor's `region_wise_sales`
divides by the zero total revenue and raises (`Except.error`), while the
report generator's variant of the same summary returns the region with
percentage `0`, as the spec requires. -/
theorem region_wise_sales_zero_total_raises :
    DataProcessor.region_wise_sales [c4tx] = .error () ∧
    ReportGenerator.region_wise_sales [c4tx] = [("North", 0, 0, 1)] := by
  constructor
  · have htot : DataProcessor.calculate_total_revenue [c4tx] = 0 := by
      norm_num [DataProcessor.calculate_total_revenue, amount, c4tx, pyRound2]
    simp [DataProcessor.region_wise_sales, htot, firstKeys]
  · have hreg : c4tx.Region = "North" := rfl
    have hsales : DataProcessor.regionSales [c4tx] "North" = 0 := by
      norm_num [DataProcessor.regionSales, amount, c4tx]
    have hcount : DataProcessor.regionCount [c4tx] "North" = 1 := by
      simp [DataProcessor.regionCount, c4tx]
    simp [ReportGenerator.region_wise_sales, firstKeys, hreg, hsales, hcount,
      stSort, stInsert]

/-! ## Line parsing (claim C6) -/

/-- C6: `parse_transactions` is the in-order `filterMap` of the
per-line parser (so output order preserves input order and concatenation
distributes), and a line yields a record exactly when its `|`-split has
exactly 8 fields and, after removing the thousands-separator commas and
stripping, the quantity field parses as an integer and the unit-price
field as a number; any other line — 7 or 9 fields, or a non-numeric
field — is dropped with no error (the embedded parser is total). -/
theorem parse_transactions_spec :
    ∀ (lines l1 l2 : List String) (line : String),
      FileHandler.parse_transactions lines = lines.filterMap FileHandler.parseLine ∧
      FileHandler.parse_transactions (l1 ++ l2) =
        FileHandler.parse_transactions l1 ++ FileHandler.parse_transactions l2 ∧
      ((FileHandler.parseLine line).isSome ↔
        (splitOnChar '|' line.data).length = 8 ∧
        (pyInt (String.mk (trimChars
          (((splitOnChar '|' line.data).getD 4 []).filter fun c => c ≠ ',')))).isSome ∧
        (pyFloat (String.mk (trimChars
          (((splitOnChar '|' line.data).getD 5 []).filter fun c => c ≠ ',')))).isSome) := by
  intro lines l1 l2 line
  refine ⟨rfl, by simp [FileHandler.parse_transactions, List.filterMap_append], ?_⟩
  unfold FileHandler.parseLine
  generalize splitOnChar '|' line.data = fs
  rcases fs with _ | ⟨a, _ | ⟨b, _ | ⟨c, _ | ⟨d, _ | ⟨e, _ | ⟨f, _ | ⟨g, _ | ⟨h, _ | ⟨i, rest⟩⟩⟩⟩⟩⟩⟩⟩⟩
  · simp [FileHandler.parseLineFields]
  · simp [FileHandler.parseLineFields]
  · simp [FileHandler.parseLineFields]
  · simp [FileHandler.parseLineFields]
  · simp [FileHandler.parseLineFields]
  · simp [FileHandler.parseLineFields]
  · simp [FileHandler.parseLineFields]
  · simp [FileHandler.parseLineFields]
  · cases hq : pyInt (String.mk (trimChars (e.filter fun c => !decide (c = ',')))) with
    | none => simp [FileHandler.parseLineFields, hq, List.getD]
    | some q =>
      cases hp : pyFloat (String.mk (trimChars (f.filter fun c => !decide (c = ',')))) with
      | none => simp [FileHandler.parseLineFields, hq, hp, List.getD]
      | some p => simp [FileHandler.parseLineFields, hq, hp, List.getD]
  · simp only [FileHandler.parseLineFields, Option.isSome_none, List.length_cons]
    constructor
    · intro hfalse
      exact absurd hfalse (by simp)
    · rintro ⟨hlen, -⟩
      omega

/-! ## Top-selling products (claim C8) -/

theorem sortDescQty_lt_asymm (a b : Option String × Int × Rat) :
    (fun a b : Option String × Int × Rat => decide (b.2.1 < a.2.1)) a b = true →
    (fun a b : Option String × Int × Rat => decide (b.2.1 < a.2.1)) b a = false := by
  intro h
  simp only [decide_eq_true_eq] at h
  simp [not_lt, le_of_lt h]

theorem sortDescQty_lt_trans (a b c : Option String × Int × Rat) :
    (fun a b : Option String × Int × Rat => decide (b.2.1 < a.2.1)) b a = false →
    (fun a b : Option String × Int × Rat => decide (b.2.1 < a.2.1)) c b = false →
    (fun a b : Option String × Int × Rat => decide (b.2.1 < a.2.1)) c a = false := by
  intro h1 h2
  simp only [decide_eq_false_iff_not, not_lt] at h1 h2 ⊢
  exact h2.trans h1

/-- C8: `top_selling_products` takes the first `n` of the product
groups — one group per distinct `ProductName`, in first-appearance order,
with summed quantity and revenue — sorted descending by total quantity,
where the sort is stable: the groups holding any fixed quantity appear in
exactly their original first-appearance order. -/
theorem top_selling_products_spec :
    ∀ (ts : List Transaction) (n : Nat),
      DataProcessor.top_selling_products ts n =
        ((DataProcessor.sortDescQty (DataProcessor.productGroups ts)).take n).map
          (fun g => (g.1, g.2.1, pyRound2 g.2.2)) ∧
      (∀ nm q r, (nm, q, r) ∈ DataProcessor.productGroups ts ↔
        ((∃ tx ∈ ts, tx.ProductName = nm) ∧ q = DataProcessor.prodQty ts nm ∧
          r = DataProcessor.prodRevenue ts nm)) ∧
      (DataProcessor.sortDescQty (DataProcessor.productGroups ts)).Pairwise
        (fun a b => b.2.1 ≤ a.2.1) ∧
      ∀ q : Int,
        (DataProcessor.sortDescQty (DataProcessor.productGroups ts)).filter
            (fun g => decide (g.2.1 = q)) =
          (DataProcessor.productGroups ts).filter (fun g => decide (g.2.1 = q)) := by
  intro ts n
  refine ⟨rfl, ?_, ?_, ?_⟩
  · intro nm q r
    constructor
    · intro hmem
      rcases List.mem_map.mp hmem with ⟨nm0, hnm0, heq⟩
      rcases Prod.mk.injEq .. ▸ heq with ⟨h1, h2⟩
      rcases Prod.mk.injEq .. ▸ h2 with h2'
      refine ⟨?_, ?_, ?_⟩
      · rcases List.mem_map.mp (mem_firstKeys.mp hnm0) with ⟨tx, htx, hPN⟩
        exact ⟨tx, htx, h1 ▸ hPN⟩
      · rw [← h1]
        exact (congrArg Prod.fst h2).symm
      · rw [← h1]
        exact (congrArg Prod.snd h2).symm
    · rintro ⟨⟨tx, htx, hPN⟩, hq, hr⟩
      refine List.mem_map.mpr ⟨nm, ?_, by rw [hq, hr]⟩
      exact mem_firstKeys.mpr (List.mem_map.mpr ⟨tx, htx, hPN⟩)
  · exact (stSort_sorted _ sortDescQty_lt_asymm sortDescQty_lt_trans
      (DataProcessor.productGroups ts)).imp
      (fun h => by simpa [not_lt] using h)
  · intro q
    refine filter_stSort _ _ ?_ _
    intro a b ha hb
    simp only [decide_eq_true_eq] at ha hb
    simp [ha, hb]

/-! ## Peak sales day (claim C9) -/

theorem dateSort_lt_asymm (a b : String × DataProcessor.DayStat) :
    (fun a b : String × DataProcessor.DayStat => decide (dateKey a.1 < dateKey b.1)) a b = true →
    (fun a b : String × DataProcessor.DayStat => decide (dateKey a.1 < dateKey b.1)) b a = false := by
  intro h
  simp only [decide_eq_true_eq] at h
  simp [not_lt, le_of_lt h]

theorem dateSort_lt_trans (a b c : String × DataProcessor.DayStat) :
    (fun a b : String × DataProcessor.DayStat => decide (dateKey a.1 < dateKey b.1)) b a = false →
    (fun a b : String × DataProcessor.DayStat => decide (dateKey a.1 < dateKey b.1)) c b = false →
    (fun a b : String × DataProcessor.DayStat => decide (dateKey a.1 < dateKey b.1)) c a = false := by
  intro h1 h2
  simp only [decide_eq_false_iff_not, not_lt] at h1 h2 ⊢
  exact h1.trans h2

/-- C9: on a non-empty transaction list whose dates all parse,
`find_peak_sales_day` returns a date occurring in the input together with
that day's (rounded) revenue and transaction count; that revenue is the
maximum over all days, and any other day with the same maximal revenue has
a calendar date no earlier than the returned one (the returned date is the
first maximum in ascending calendar order). -/
theorem find_peak_sales_day_spec :
    ∀ (ts : List Transaction), ts ≠ [] →
      (∀ tx ∈ ts, (parseDate tx.Date).isSome) →
      ∃ d : String, (∃ tx ∈ ts, tx.Date = d) ∧
        DataProcessor.find_peak_sales_day ts =
          .ok (d, pyRound2 (DataProcessor.dayRevenue ts d), DataProcessor.dayCount ts d) ∧
        ∀ d' : String, (∃ tx ∈ ts, tx.Date = d') →
          pyRound2 (DataProcessor.dayRevenue ts d') ≤
            pyRound2 (DataProcessor.dayRevenue ts d) ∧
          (pyRound2 (DataProcessor.dayRevenue ts d') =
              pyRound2 (DataProcessor.dayRevenue ts d) →
            dateKey d ≤ dateKey d') := by
  intro ts hne hdates
  have hall : ((ts.map fun tx => tx.Date).all fun d => (parseDate d).isSome) = true := by
    rw [List.all_eq_true]
    intro d hd
    rcases List.mem_map.mp hd with ⟨tx, htx, rfl⟩
    exact hdates tx htx
  have hdaily : DataProcessor.daily_sales_trend ts =
      .ok (stSort (fun a b => decide (dateKey a.1 < dateKey b.1))
        ((firstKeys (ts.map fun tx => tx.Date)).map fun d => (d, DataProcessor.dayStat ts d))) := by
    unfold DataProcessor.daily_sales_trend
    rw [if_pos hall]
  have hgne : ((firstKeys (ts.map fun tx => tx.Date)).map
      fun d => (d, DataProcessor.dayStat ts d)) ≠ [] := by
    rcases ts with _ | ⟨t0, rest⟩
    · exact absurd rfl hne
    · simp [firstKeys]
  have hsne : stSort (fun a b => decide (dateKey a.1 < dateKey b.1))
      ((firstKeys (ts.map fun tx => tx.Date)).map
        fun d => (d, DataProcessor.dayStat ts d)) ≠ [] := by
    intro h0
    apply hgne
    have hlen := (stSort_perm (fun a b => decide (dateKey a.1 < dateKey b.1))
      ((firstKeys (ts.map fun tx => tx.Date)).map
        fun d => (d, DataProcessor.dayStat ts d))).length_eq
    rw [h0] at hlen
    exact List.eq_nil_of_length_eq_zero hlen.symm
  rcases pyMaxBy_spec (fun e => e.2.revenue) _ hsne with ⟨r, l1, l2, hmaxeq, hsplit, hl1, hle⟩
  have hfp : DataProcessor.find_peak_sales_day ts =
      .ok (r.1, r.2.revenue, r.2.transaction_count) := by
    simp [DataProcessor.find_peak_sales_day, hdaily, hmaxeq]
  have hrmem : r ∈ ((firstKeys (ts.map fun tx => tx.Date)).map
      fun d => (d, DataProcessor.dayStat ts d)) := by
    refine (stSort_perm (fun a b => decide (dateKey a.1 < dateKey b.1))
      ((firstKeys (ts.map fun tx => tx.Date)).map
        fun d => (d, DataProcessor.dayStat ts d))).mem_iff.mp ?_
    rw [hsplit]
    exact List.mem_append.mpr (Or.inr (List.mem_cons_self _ _))
  rcases List.mem_map.mp hrmem with ⟨d, hd, hrd⟩
  have hdpres : ∃ tx ∈ ts, tx.Date = d := by
    rcases List.mem_map.mp (mem_firstKeys.mp hd) with ⟨tx, htx, h⟩
    exact ⟨tx, htx, h⟩
  have hsort := stSort_sorted (fun a b => decide (dateKey a.1 < dateKey b.1))
    dateSort_lt_asymm dateSort_lt_trans
    ((firstKeys (ts.map fun tx => tx.Date)).map fun d => (d, DataProcessor.dayStat ts d))
  rw [hsplit] at hsort
  have htail := (List.pairwise_cons.mp (List.pairwise_append.mp hsort).2.1).1
  refine ⟨d, hdpres, ?_, ?_⟩
  · rw [hfp, ← hrd]
    rfl
  · intro d' hd'pres
    have hmemg : (d', DataProcessor.dayStat ts d') ∈
        ((firstKeys (ts.map fun tx => tx.Date)).map
          fun d => (d, DataProcessor.dayStat ts d)) := by
      rcases hd'pres with ⟨tx, htx, htxd⟩
      exact List.mem_map.mpr ⟨d', mem_firstKeys.mpr (List.mem_map.mpr ⟨tx, htx, htxd⟩), rfl⟩
    have hmem_s : (d', DataProcessor.dayStat ts d') ∈ l1 ++ r :: l2 := by
      rw [← hsplit]
      exact (stSort_perm (fun a b => decide (dateKey a.1 < dateKey b.1))
        ((firstKeys (ts.map fun tx => tx.Date)).map
          fun d => (d, DataProcessor.dayStat ts d))).mem_iff.mpr hmemg
    have hrev : (DataProcessor.dayStat ts d').revenue ≤ r.2.revenue :=
      hle _ (hsplit ▸ hmem_s)
    have hrrev : r.2.revenue = pyRound2 (DataProcessor.dayRevenue ts d) := by
      rw [← hrd]
      rfl
    have h1 : (DataProcessor.dayStat ts d').revenue =
        pyRound2 (DataProcessor.dayRevenue ts d') := rfl
    constructor
    · rw [← h1, ← hrrev]
      exact hrev
    · intro heq
      rcases List.mem_append.mp hmem_s with hb1 | hb2
      · exfalso
        have := hl1 _ hb1
        rw [show (DataProcessor.dayStat ts d').revenue =
          pyRound2 (DataProcessor.dayRevenue ts d') from rfl, heq, ← hrrev] at this
        exact lt_irrefl _ this
      · rcases List.mem_cons.mp hb2 with hbr | hbl2
        · have : d' = d := by
            have := congrArg Prod.fst hbr
            rw [← hrd] at this
            exact this
          rw [this]
        · have := htail _ hbl2
          simp only [decide_eq_false_iff_not, not_lt] at this
          rw [← hrd] at this
          exact this

def w9tx : Transaction :=
  { TransactionID := "T001", Date := "2024-12-01", ProductID := "P101",
    ProductName := some "Laptop", Quantity := 2, UnitPrice := 5,
    CustomerID := "C001", Region := "North" }

/-- Witness for C9 on a concrete one-transaction list. -/
theorem find_peak_sales_day_spec_witness :
    ∃ d : String, (∃ tx ∈ [w9tx], tx.Date = d) ∧
      DataProcessor.find_peak_sales_day [w9tx] =
        .ok (d, pyRound2 (DataProcessor.dayRevenue [w9tx] d),
          DataProcessor.dayCount [w9tx] d) ∧
      ∀ d' : String, (∃ tx ∈ [w9tx], tx.Date = d') →
        pyRound2 (DataProcessor.dayRevenue [w9tx] d') ≤
          pyRound2 (DataProcessor.dayRevenue [w9tx] d) ∧
        (pyRound2 (DataProcessor.dayRevenue [w9tx] d') =
            pyRound2 (DataProcessor.dayRevenue [w9tx] d) →
          dateKey d ≤ dateKey d') :=
  find_peak_sales_day_spec [w9tx] (by simp) (by decide)

/-! ## Catalog enrichment (claims C2 and C10) -/

theorem foldl_dictInsert_not_mem (ps : List CatalogProduct) (k : Nat)
    (h : ∀ q ∈ ps, q.id ≠ k) : ∀ (acc : List (Nat × CatalogProduct)),
    dictGet? (ps.foldl (fun m q => dictInsert m q.id q) acc) k = dictGet? acc k := by
  induction ps with
  | nil => intro acc; rfl
  | cons q qs ih =>
    intro acc
    rw [List.foldl_cons, ih (fun q' hq' => h q' (List.mem_cons_of_mem q hq'))]
    exact dictGet?_dictInsert_ne acc q.id k q (Ne.symm (h q (List.mem_cons_self q qs)))

theorem foldl_dictInsert_lookup (ps : List CatalogProduct) (p : CatalogProduct)
    (hnodup : (ps.map fun q => q.id).Nodup) (hmem : p ∈ ps) :
    ∀ (acc : List (Nat × CatalogProduct)),
    dictGet? (ps.foldl (fun m q => dictInsert m q.id q) acc) p.id = some p := by
  induction ps with
  | nil => cases hmem
  | cons q qs ih =>
    intro acc
    rw [List.map_cons, List.nodup_cons] at hnodup
    rw [List.foldl_cons]
    rcases List.mem_cons.mp hmem with rfl | hmem'
    · have hno : ∀ q' ∈ qs, q'.id ≠ p.id := by
        intro q' hq' heq
        exact hnodup.1 (heq ▸ List.mem_map.mpr ⟨q', hq', rfl⟩)
      rw [foldl_dictInsert_not_mem qs p.id hno]
      exact dictGet?_dictInsert_self acc p.id p
    · exact ih hnodup.2 hmem' _

theorem byId_lookup (ps : List CatalogProduct) (p : CatalogProduct)
    (hnodup : (ps.map fun q => q.id).Nodup) (hmem : p ∈ ps) :
    dictGet? (ApiHandler.create_product_mapping ps).by_id p.id = some p :=
  foldl_dictInsert_lookup ps p hnodup hmem []

/-- C2: enrichment tries the numeric-id lookup first and only on its
failure falls back to the normalized-name substring scan, whose first hit
(in catalog dict order) wins; in particular, when the digits of the
transaction's `ProductID` equal the id of a catalog product (ids assumed
distinct, as dict keys), the enriched record carries that product's
category, brand and rating verbatim, with `API_Match = true`, regardless
of the product name. -/
theorem enrich_numeric_id_first :
    (∀ (ps : List CatalogProduct) (tx : Transaction) (p : CatalogProduct),
      (ps.map fun q => q.id).Nodup → p ∈ ps →
      ApiHandler.pyIntDigits tx.ProductID = some p.id →
      ApiHandler.enrichTx (ApiHandler.create_product_mapping ps) tx =
        .ok { toTransaction := tx, API_Category := p.category, API_Brand := p.brand,
              API_Rating := p.rating, API_Match := true }) ∧
    (∀ (m : ApiHandler.ProductMapping) (tx : Transaction) (q : CatalogProduct),
      ApiHandler.idLookup m tx = some q →
      ApiHandler.enrichTx m tx =
        .ok { toTransaction := tx, API_Category := q.category, API_Brand := q.brand,
              API_Rating := q.rating, API_Match := true }) ∧
    (∀ (m : ApiHandler.ProductMapping) (tx : Transaction) (name : String)
       (pre post : List (String × CatalogProduct)) (k : String) (v : CatalogProduct),
      ApiHandler.idLookup m tx = none → tx.ProductName = some name →
      m.by_title = pre ++ (k, v) :: post →
      (∀ kv ∈ pre, ApiHandler.titleHit (ApiHandler.normTitle name) kv.1 = false) →
      ApiHandler.titleHit (ApiHandler.normTitle name) k = true →
      ApiHandler.enrichTx m tx =
        .ok { toTransaction := tx, API_Category := v.category, API_Brand := v.brand,
              API_Rating := v.rating, API_Match := true }) := by
  have hok : ∀ (m : ApiHandler.ProductMapping) (tx : Transaction) (q : CatalogProduct),
      ApiHandler.idLookup m tx = some q →
      ApiHandler.enrichTx m tx =
        .ok { toTransaction := tx, API_Category := q.category, API_Brand := q.brand,
              API_Rating := q.rating, API_Match := true } := by
    intro m tx q h
    simp [ApiHandler.enrichTx, h, ApiHandler.mkEnriched]
  refine ⟨?_, hok, ?_⟩
  · intro ps tx p hnodup hmem hpid
    refine hok (ApiHandler.create_product_mapping ps) tx p ?_
    unfold ApiHandler.idLookup
    rw [hpid]
    exact byId_lookup ps p hnodup hmem
  · intro m tx name pre post k v hid hpn hbt hpre hk
    have hfind : (m.by_title.find? fun kv =>
        ApiHandler.titleHit (ApiHandler.normTitle name) kv.1) = some (k, v) := by
      rw [hbt]
      exact find?_append_first _ pre post (k, v) hpre hk
    simp [ApiHandler.enrichTx, hid, hpn, ApiHandler.nameLookup, hfind, ApiHandler.mkEnriched]

def c2p : CatalogProduct :=
  { id := 101, title := "Laptop", category := "electronics", brand := "TechCo", rating := 5 }

def c2tx : Transaction :=
  { TransactionID := "T001", Date := "2024-12-01", ProductID := "P101",
    ProductName := some "Laptop", Quantity := 2, UnitPrice := 45000,
    CustomerID := "C001", Region := "North" }

/-- Witness for C2: `ProductID "P101"` against the one-product catalog with
id `101`. -/
theorem enrich_numeric_id_first_witness :
    ApiHandler.enrichTx (ApiHandler.create_product_mapping [c2p]) c2tx =
      .ok { toTransaction := c2tx, API_Category := "electronics", API_Brand := "TechCo",
            API_Rating := 5, API_Match := true } :=
  enrich_numeric_id_first.1 [c2p] c2tx c2p (by decide) (by simp) (by decide)

theorem mkEnriched_fields (tx : Transaction) (o : Option CatalogProduct) :
    (ApiHandler.mkEnriched tx o).API_Match = true ∧
    (ApiHandler.mkEnriched tx o).toTransaction = tx := by
  cases o <;> exact ⟨rfl, rfl⟩

theorem enrichTx_ok_match {m : ApiHandler.ProductMapping} {tx : Transaction}
    {e : EnrichedTransaction} (h : ApiHandler.enrichTx m tx = .ok e) :
    e.API_Match = true := by
  unfold ApiHandler.enrichTx at h
  cases hid : ApiHandler.idLookup m tx with
  | some p =>
    rw [hid] at h
    cases Except.ok.inj h
    exact (mkEnriched_fields tx (some p)).1
  | none =>
    rw [hid] at h
    cases hpn : tx.ProductName with
    | none =>
      rw [hpn] at h
      exact absurd h (by simp)
    | some nm =>
      rw [hpn] at h
      cases Except.ok.inj h
      exact (mkEnriched_fields tx (ApiHandler.nameLookup m nm)).1

theorem enrich_ok_all_match :
    ∀ (ts : List Transaction) (m : ApiHandler.ProductMapping)
      (es : List EnrichedTransaction),
      ApiHandler.enrich_sales_data ts m = .ok es →
      es.length = ts.length ∧ ∀ e ∈ es, e.API_Match = true := by
  intro ts
  induction ts with
  | nil =>
    intro m es h
    cases Except.ok.inj h
    exact ⟨rfl, by simp⟩
  | cons tx rest ih =>
    intro m es h
    unfold ApiHandler.enrich_sales_data at h
    cases h1 : ApiHandler.enrichTx m tx with
    | error e0 =>
      rw [h1] at h
      exact absurd h (by simp)
    | ok etx =>
      rw [h1] at h
      cases h2 : ApiHandler.enrich_sales_data rest m with
      | error e0 =>
        rw [h2] at h
        exact absurd h (by simp)
      | ok rest' =>
        rw [h2] at h
        cases Except.ok.inj h
        rcases ih m rest' h2 with ⟨hlen, hall⟩
        refine ⟨by simp [hlen], ?_⟩
        intro e he
        rcases List.mem_cons.mp he with rfl | he'
        · exact enrichTx_ok_match h1
        · exact hall e he'

/-- C10: every record `enrich_sales_data` produces has
`API_Match = true` (for any transaction list and any mapping, the empty
catalog included); an unmatched transaction gets the forced placeholder
`"miscellaneous"`/`"Generic"`/`4.0`; consequently `api_enrichment_summary`
of such an output reports no failed enrichment, an empty failed-products
list, and a 100% success rate on non-empty output. -/
theorem enrich_force_match :
    (∀ (ts : List Transaction) (m : ApiHandler.ProductMapping)
      (es : List EnrichedTransaction),
      ApiHandler.enrich_sales_data ts m = .ok es →
      es.length = ts.length ∧
      (∀ e ∈ es, e.API_Match = true) ∧
      (ReportGenerator.api_enrichment_summary es).matched = es.length ∧
      (ReportGenerator.api_enrichment_summary es).failed = 0 ∧
      (ReportGenerator.api_enrichment_summary es).failed_products = [] ∧
      (es ≠ [] → (ReportGenerator.api_enrichment_summary es).success_rate = 100)) ∧
    (∀ (m : ApiHandler.ProductMapping) (tx : Transaction) (name : String),
      ApiHandler.idLookup m tx = none → tx.ProductName = some name →
      ApiHandler.nameLookup m name = none →
      ApiHandler.enrichTx m tx =
        .ok { toTransaction := tx, API_Category := "miscellaneous", API_Brand := "Generic",
              API_Rating := 4, API_Match := true }) := by
  constructor
  · intro ts m es h
    rcases enrich_ok_all_match ts m es h with ⟨hlen, hall⟩
    have hmatched : (es.filter fun t => t.API_Match = true) = es :=
      List.filter_eq_self.mpr fun e he => by simp [hall e he]
    have hfailed : (es.filter fun t => t.API_Match = false) = [] := by
      rw [List.filter_eq_nil_iff]
      intro e he
      simp [hall e he]
    refine ⟨hlen, hall, ?_, ?_, ?_, ?_⟩
    · show (es.filter fun t => t.API_Match = true).length = es.length
      rw [hmatched]
    · show (es.filter fun t => t.API_Match = false).length = 0
      rw [hfailed]
      rfl
    · show ReportGenerator.sortedFailedNames
        ((es.filter fun t => t.API_Match = false).map fun t => t.ProductName) = []
      rw [hfailed]
      rfl
    · intro hne
      show (if es.length = 0 then (0 : Rat)
        else ((es.filter fun t => t.API_Match = true).length : Rat) / (es.length : Rat) * 100) = 100
      have hlen0 : es.length ≠ 0 := fun h0 => hne (List.eq_nil_of_length_eq_zero h0)
      rw [if_neg hlen0, hmatched, div_self (by exact_mod_cast hlen0), one_mul]
  · intro m tx name hid hpn hnl
    have hfind : (m.by_title.find? fun kv =>
        ApiHandler.titleHit (ApiHandler.normTitle name) kv.1) = none := by
      cases hf : m.by_title.find? fun kv =>
          ApiHandler.titleHit (ApiHandler.normTitle name) kv.1 with
      | none => rfl
      | some kv =>
        unfold ApiHandler.nameLookup at hnl
        rw [hf] at hnl
        exact absurd hnl (by simp)
    simp [ApiHandler.enrichTx, hid, hpn, ApiHandler.nameLookup, hfind, ApiHandler.mkEnriched]

def c10tx : Transaction :=
  { TransactionID := "T010", Date := "2024-12-01", ProductID := "P7",
    ProductName := some "Widget", Quantity := 1, UnitPrice := 10,
    CustomerID := "C010", Region := "East" }

def c10map : ApiHandler.ProductMapping := { by_title := [], by_id := [] }

def c10e : EnrichedTransaction :=
  { toTransaction := c10tx, API_Category := "miscellaneous", API_Brand := "Generic",
    API_Rating := 4, API_Match := true }

/-- Witness for C10: one transaction enriched against the empty catalog. -/
theorem enrich_force_match_witness :
    (ReportGenerator.api_enrichment_summary [c10e]).success_rate = 100 ∧
    (ReportGenerator.api_enrichment_summary [c10e]).failed_products = [] ∧
    (ReportGenerator.api_enrichment_summary [c10e]).failed = 0 := by
  have h := enrich_force_match.1 [c10tx] c10map [c10e] rfl
  exact ⟨h.2.2.2.2.2 (by simp), h.2.2.2.2.1, h.2.2.2.1⟩
